import Mathlib

/-
Verification of the scintools dynamic-spectrum engine (`scintools/dynspec.py`)
against its natural-language specification.

The Python code is shallowly embedded:
* float values are modelled exactly by rationals (`ℚ`); where the code relies
  on IEEE non-finite values (NaN/inf) as "missing data" sentinels, values are
  `Option ℚ` with `none` standing for a non-finite float;
* numpy arrays are lists or index functions with explicit dimensions;
* the 2-D discrete Fourier transforms of `calc_acf` are embedded exactly over
  `ℂ` with the standard numpy kernel `exp (-2·π·i/N)`;
* external library routines (scipy's `griddata`) are parameters constrained by
  their documented contract, stated explicitly at each use.
-/

namespace Scintools

/-! ## Definitions -/

/-- Embeds the transform-length choice of `Dynspec.calc_sspec`
(dynspec.py lines 598–599): `int(2**(np.ceil(np.log2(n))+1))`.
For `n ≥ 1`, `np.ceil(np.log2 n)` is the ceiling base-2 logarithm, which is
`Nat.clog 2 n` (the float computation is exact for all realistic sizes). -/
def sspecFftLen (n : ℕ) : ℕ := 2 ^ (Nat.clog 2 n + 1)

/-- Embeds Python `list(range(a, b))` over integers. -/
def intRange (a b : ℤ) : List ℤ := (List.range (b - a).toNat).map (fun i : ℕ => a + (i : ℤ))

/-- Embeds `fd = list(range(int(-ncfft/2), int(ncfft/2)))` of `calc_sspec`
(dynspec.py line 610), where `ncfft = sspecFftLen nt`. -/
def sspecFd (nt : ℕ) : List ℤ :=
  intRange (-((sspecFftLen nt : ℤ) / 2)) ((sspecFftLen nt : ℤ) / 2)

/-- Embeds `td = list(range(0, int(nrfft/2)))` of `calc_sspec`
(dynspec.py line 609), where `nrfft = sspecFftLen nf`. -/
def sspecTd (nf : ℕ) : List ℕ := List.range (sspecFftLen nf / 2)

/-- Embeds `fdop = np.multiply(fd, 1e3/(ncfft*self.dt))` of `calc_sspec`
(dynspec.py line 627): the stored Doppler-frequency axis, in mHz. -/
def sspecFdop (nt : ℕ) (dt : ℚ) : List ℚ :=
  (sspecFd nt).map (fun k : ℤ => (k : ℚ) * (1000 / ((sspecFftLen nt : ℚ) * dt)))

/-- Embeds `tdel = np.divide(td, (nrfft*self.df))` of `calc_sspec`
(dynspec.py line 628): the stored delay axis, in µs. -/
def sspecTdel (nf : ℕ) (df : ℚ) : List ℚ :=
  (sspecTd nf).map (fun k : ℕ => (k : ℚ) / ((sspecFftLen nf : ℚ) * df))

/-- Per-channel (row) mean across time: `np.mean(dyn, axis=1)` as used by
`Dynspec.correct_band` (dynspec.py line 572), for an `nf × nt` matrix. -/
def rowMean (dyn : ℕ → ℕ → ℚ) (nt : ℕ) (i : ℕ) : ℚ :=
  (∑ j ∈ Finset.range nt, dyn i j) / nt

/-- Per-time (column) mean across frequency: `np.mean(dyn, axis=0)`
(dynspec.py line 576), for an `nf × nt` matrix. -/
def colMean (dyn : ℕ → ℕ → ℚ) (nf : ℕ) (j : ℕ) : ℚ :=
  (∑ i ∈ Finset.range nf, dyn i j) / nf

/-- Elementwise division of the matrix by the column vector of its row means:
`np.divide(dyn, np.reshape(self.bandpass, [len(self.bandpass), 1]))`
(dynspec.py lines 573–574). -/
def divByRowMean (dyn : ℕ → ℕ → ℚ) (nt : ℕ) : ℕ → ℕ → ℚ :=
  fun i j => dyn i j / rowMean dyn nt i

/-- Elementwise division of the matrix by the row vector of its column means:
`np.divide(dyn, np.reshape(self.bandpass, [1, len(self.bandpass)]))`
(dynspec.py lines 577–578). -/
def divByColMean (dyn : ℕ → ℕ → ℚ) (nf : ℕ) : ℕ → ℕ → ℚ :=
  fun i j => dyn i j / colMean dyn nf j

/-- Record state read and written by `Dynspec.correct_band`: the intensity
matrix (an `nf × nt` grid of finite values) and the stored bandpass vector. -/
structure BandState where
  dyn : ℕ → ℕ → ℚ
  nf : ℕ
  nt : ℕ
  bandpass : ℕ → ℚ

/-- Embeds `Dynspec.correct_band` (dynspec.py 561–582) with `lamsteps=False`:
`self.bandpass` is set to the row means and the local `dyn` is divided by
them; if `time` is true, `self.bandpass` is reset to the column means of the
once-flattened matrix and `self.dyn` is assigned the twice-flattened matrix
(lines 575–578); the method then unconditionally executes `self.dyn = dyn`
(line 582), where the local `dyn` still holds the once-flattened matrix. -/
def correct_band (s : BandState) (time : Bool) : BandState :=
  let dyn := divByRowMean s.dyn s.nt
  let s1 :=
    if time then
      { s with bandpass := colMean dyn s.nf, dyn := divByColMean dyn s.nf }
    else
      { s with bandpass := rowMean s.dyn s.nt }
  { s1 with dyn := dyn }

/-- Concrete 2×2 intensity matrix `[[1, 2], [3, 4]]` exhibiting the
`correct_band(time=True)` overwrite. -/
def exBandDyn : ℕ → ℕ → ℚ :=
  fun i j => if i = 0 then (if j = 0 then 1 else 2) else (if j = 0 then 3 else 4)

/-- Python round-half-to-even (banker's rounding) of a rational to an
integer, the behaviour of builtin `round`. -/
def bround (x : ℚ) : ℤ :=
  if x - ⌊x⌋ < 1 / 2 then ⌊x⌋
  else if 1 / 2 < x - ⌊x⌋ then ⌊x⌋ + 1
  else if Even ⌊x⌋ then ⌊x⌋ else ⌊x⌋ + 1

/-- Python `round(x, d)`: banker's rounding to `d` decimal places. -/
def broundTo (x : ℚ) (d : ℕ) : ℚ := (bround (x * 10 ^ d) : ℚ) / 10 ^ d

/-- Number of elements of `np.arange(start, stop, step)` for `step > 0`:
`max 0 ⌈(stop - start)/step⌉`. -/
def arangeLen (start stop step : ℚ) : ℕ := (⌈(stop - start) / step⌉).toNat

/-- `np.arange(start, stop, step)` for `step > 0`. -/
def arangeQ (start stop step : ℚ) : List ℚ :=
  (List.range (arangeLen start stop step)).map (fun k : ℕ => start + k * step)

/-- The record fields of a processed dynamic spectrum that the gap
construction of `Dynspec.__add__` (dynspec.py 61–66) reads.  Matrix entries
are `Option ℚ`, `none` standing for a non-finite float (NaN). -/
structure AddRec where
  mjd : ℚ
  tobs : ℚ
  dt : ℚ
  dyn : List (List (Option ℚ))

/-- `timegap = round((other.mjd - self.mjd)*86400 - self.tobs, 2)`
(dynspec.py lines 62–63). -/
def addTimegap (a b : AddRec) : ℚ := broundTo ((b.mjd - a.mjd) * 86400 - a.tobs) 2

/-- `nextra = len(np.arange(self.dt/2, timegap, dt))` (dynspec.py 64–65):
the number of columns of the inserted gap block. -/
def addNextra (a b : AddRec) : ℕ := arangeLen (a.dt / 2) (addTimegap a b) a.dt

/-- `dyngap = np.zeros([np.shape(self.dyn)[0], nextra])` (dynspec.py 66): the
gap block concatenated between the two matrices on line 77. -/
def addDyngap (a b : AddRec) : List (List (Option ℚ)) :=
  List.replicate a.dyn.length (List.replicate (addNextra a b) (some 0))

/-- First record of the concrete gap scenario: `mjd = 50000`,
`tobs = 100 s`, `dt = 10 s`. -/
def exAdd1 : AddRec := ⟨50000, 100, 10, [[some 1]]⟩

/-- Second record of the concrete gap scenario, starting `306 s` after the
first record's start, so the inter-observation gap is `206 s`. -/
def exAdd2 : AddRec := ⟨50000 + 306 / 86400, 100, 10, [[some 1]]⟩

/-- Record state touched by `Dynspec.fit_arc`: the stored secondary spectrum
(entries `Option ℚ`, `none` = NaN) and the optional curvature attributes;
`none` in `eta`/`etaL`/`etaR` means the attribute is absent. -/
structure ArcState where
  sspec : List (List (Option ℚ))
  eta : Option ℚ
  etaL : Option ℚ
  etaR : Option ℚ

/-- Embeds the record updates performed by `Dynspec.fit_arc`
(dynspec.py 265–357) for the supported method `'gridmax'` with `plot=False`:
line 281 (`sspec[0:startbin, :] = np.nan`) masks the first `startbin` delay
rows of the stored spectrum in place, and line 357 (`self.eta = eta`) stores
the branch-averaged curvature.  The grid-search numerics (lines 282–343)
produce three curvatures `eta`, `etaL`, `etaR` as local variables, passed in
here as parameters, because the claim concerns only which of them the method
stores: these two are the method's only attribute assignments. -/
def fit_arc_update (s : ArcState) (startbin : ℕ) (eta etaL etaR : ℚ) : ArcState :=
  { s with
    sspec := s.sspec.mapIdx
      (fun i row => if i < startbin then row.map (fun _ => (none : Option ℚ)) else row)
    eta := some eta }

/-- One raw line of a psrflux-format file, pre-tokenized: `isComment` is true
when the raw text starts with `#`, and `tokens` lists the whitespace-split
words of the stripped line content after the leading `#`
(Python `str.split(str.strip(line[1:]))`). -/
structure RawLine where
  isComment : Bool
  tokens : List String

/-- Embeds the header loop of `Dynspec.load_file` (dynspec.py 95–102): every
comment line's content joins the header list, and whenever the first token of
such a line is `MJD0:`, `self.mjd` is (re)assigned from the following token
(kept as its raw token here; the numeric value is irrelevant to the claims).
The loop performs no validation: when no line carries the key, `mjd` is never
assigned (`none`) and no error is raised. -/
def loadHeader (lines : List RawLine) : List (List String) × Option String :=
  lines.foldl
    (fun acc line =>
      if line.isComment then
        (acc.1 ++ [line.tokens],
          if line.tokens.headD "" = "MJD0:" then some (line.tokens.getD 1 "") else acc.2)
      else acc)
    ([], none)

/-- Ordered insertion, the auxiliary step of the `np.unique` model. -/
def insertAsc (x : ℚ) : List ℚ → List ℚ
  | [] => [x]
  | y :: ys => if x ≤ y then x :: y :: ys else y :: insertAsc x ys

/-- Insertion sort into ascending order. -/
def sortAsc (l : List ℚ) : List ℚ := l.foldr insertAsc []

/-- Removal of adjacent duplicates in a sorted list. -/
def dedupAsc : List ℚ → List ℚ
  | [] => []
  | [x] => [x]
  | x :: y :: ys => if x = y then dedupAsc (y :: ys) else x :: dedupAsc (y :: ys)

/-- `np.unique`: the ascending list of distinct values. -/
def npUnique (l : List ℚ) : List ℚ := dedupAsc (sortAsc l)

/-- `np.mean` of a 1-D array. -/
def listMean (l : List ℚ) : ℚ := l.sum / l.length

/-- The content of a psrflux-format file after text parsing: the raw lines
and the six data columns (`rawdata[0..5]`, dynspec.py 105–109). -/
structure PsrfluxInput where
  lines : List RawLine
  subIdx : List ℚ
  chanIdx : List ℚ
  timeMin : List ℚ
  freqMHz : List ℚ
  flux : List ℚ
  fluxErr : List ℚ

/-- `int(np.unique(rawdata[1])[-1])` (dynspec.py 110): the raw channel count
before the `+= 1` correction (indices are nonnegative, so `int` truncation is
the floor). -/
def loadNchanRaw (inp : PsrfluxInput) : ℤ := ⌊(npUnique inp.chanIdx).getLastD 0⌋

/-- `int(np.unique(rawdata[0])[-1]) + 1` (dynspec.py 115). -/
def loadNsub (inp : PsrfluxInput) : ℕ := (⌊(npUnique inp.subIdx).getLastD 0⌋).toNat + 1

/-- The corrected channel count `nchan += 1` (dynspec.py 114). -/
def loadNchan (inp : PsrfluxInput) : ℕ := (loadNchanRaw inp).toNat + 1

/-- The fields of a `Dynspec` record as populated by `load_file`. -/
structure LoadedRec where
  header : List (List String)
  mjd : Option String
  times : List ℚ
  freqs : List ℚ
  nchan : ℕ
  nsub : ℕ
  bw : ℚ
  df : ℚ
  freq : ℚ
  dt : ℚ
  tobs : ℚ
  dyn : List (List ℚ)

/-- Embeds `Dynspec.load_file` (dynspec.py 86–138) with `process=False` and
`verbose=False` on pre-parsed file content.  The reshape of the flux column
into an `[nsub, nchan]` matrix (line 122) raises a `ValueError` when the
column length is inconsistent — modelled as the only error exit on this path;
`dyn` is the transposed `[nchan, nsub]` grid `dyn[i][r] = flux[r*nchan + i]`,
row-reversed together with sign-corrected `df`, `bw` when the detected
channel spacing is negative (lines 124–129).  There is no MJD0 validation
anywhere: a missing key leaves `mjd` unset and loading still succeeds. -/
def load_file (inp : PsrfluxInput) : Except String LoadedRec :=
  let hm := loadHeader inp.lines
  let times := npUnique (inp.timeMin.map (fun t : ℚ => t * 60))
  let bw0 := inp.freqMHz.getLastD 0 - inp.freqMHz.headD 0
  let df := broundTo (bw0 / (loadNchanRaw inp : ℚ)) 5
  let bw := broundTo (bw0 + df) 2
  let nchan := loadNchan inp
  let nsub := loadNsub inp
  let dt : ℤ := bround (times.getLastD 0 / (nsub : ℚ))
  let tobs : ℚ := (dt : ℚ) * nsub
  let freqs := npUnique inp.freqMHz
  let freq := broundTo (listMean freqs) 2
  if inp.flux.length = nsub * nchan then
    let dyn := (List.range nchan).map
      (fun i : ℕ => (List.range nsub).map (fun r : ℕ => inp.flux.getD (r * nchan + i) 0))
    if df < 0 then
      Except.ok ⟨hm.1, hm.2, times, freqs, nchan, nsub, -bw, -df, freq, (dt : ℚ), tobs,
        dyn.reverse⟩
    else
      Except.ok ⟨hm.1, hm.2, times, freqs, nchan, nsub, bw, df, freq, (dt : ℚ), tobs, dyn⟩
  else Except.error "cannot reshape fluxes into nsub x nchan"

/-- Concrete well-formed psrflux input whose header lines carry no `MJD0:`
key: two comment lines, one sub-integration, two channels. -/
def exInput : PsrfluxInput :=
  ⟨[⟨true, ["Telescope", "FAKE"]⟩, ⟨false, ["0", "0", "0", "1400", "1", "0"]⟩,
      ⟨true, ["Starting", "late"]⟩],
    [0, 0], [0, 1], [0, 0], [1400, 1401], [1, 2], [0, 0]⟩

/-- `self.dyn[self.dyn == 0] = np.nan` (dynspec.py 547), the `zeros=True`
step of `refill`: exact zeros are reinterpreted as missing. -/
def maskZeros (d : ℕ → ℕ → Option ℚ) : ℕ → ℕ → Option ℚ :=
  fun i j => if d i j = some 0 then none else d i j

/-- Contract of the external collaborator `scipy.interpolate.griddata`
(dynspec.py 558): the scattered linear interpolant, evaluated at a grid point
that is itself a valid (finite) data site, returns that site's value. -/
def Interpolates (G : (ℕ → ℕ → Option ℚ) → ℕ → ℕ → Option ℚ) : Prop :=
  ∀ (d : ℕ → ℕ → Option ℚ) (i j : ℕ) (q : ℚ), d i j = some q → G d i j = some q

/-- Embeds `Dynspec.refill` (dynspec.py 541–559) with `zeros=True`: zeros are
masked to NaN in place, the remaining finite entries become the valid sample
set of `np.ma.masked_invalid`, and the whole grid is replaced by the
scattered interpolation `griddata((x1, y1), newarr, (xx, yy))` over those
samples, modelled by the external parameter `G`. -/
def refill (G : (ℕ → ℕ → Option ℚ) → ℕ → ℕ → Option ℚ)
    (d : ℕ → ℕ → Option ℚ) : ℕ → ℕ → Option ℚ :=
  G (maskZeros d)

/-- A concrete interpolator satisfying the `griddata` contract, for
witnessing: it keeps valid samples and fills gaps with `0`. -/
def exInterp : (ℕ → ℕ → Option ℚ) → ℕ → ℕ → Option ℚ :=
  fun d i j => match d i j with
    | some q => some q
    | none => some 0

/-- A concrete all-finite, all-nonzero matrix for witnessing. -/
def exRefillDyn : ℕ → ℕ → Option ℚ := fun i j => some ((i : ℚ) + (j : ℚ) + 1)

/-- Float addition with a non-finite absorbing element (`none` = NaN/inf). -/
def nanAdd : Option ℚ → Option ℚ → Option ℚ
  | some a, some b => some (a + b)
  | _, _ => none

/-- `sum(abs(row))` over a float row (dynspec.py 525): `none` (non-finite)
entries poison the sum, as NaN does. -/
def nanAbsSum : List (Option ℚ) → Option ℚ
  | [] => some 0
  | x :: xs => nanAdd (x.map (fun a : ℚ => |a|)) (nanAbsSum xs)

/-- The `while` guard of `trim_edges` (dynspec.py 527, 533): a boundary row
is trimmed while `sum(abs(row)) == 0` (NaN compares unequal to zero). -/
def rowZero (row : List (Option ℚ)) : Bool := nanAbsSum row == some 0

/-- The bottom-trimming loop of `trim_edges` (dynspec.py 526–530): delete the
first matrix row and the first frequency entry while the first row is
zero-sum.  Generic in the frequency entry type. -/
def trimBottom {α : Type} : List (List (Option ℚ)) → List α →
    List (List (Option ℚ)) × List α
  | r :: rs, x :: fs => if rowZero r then trimBottom rs fs else (r :: rs, x :: fs)
  | rs, fs => (rs, fs)

/-- The top-trimming loop of `trim_edges` (dynspec.py 531–536), acting on the
reversed lists. -/
def trimTop {α : Type} (d : List (List (Option ℚ))) (f : List α) :
    List (List (Option ℚ)) × List α :=
  ((trimBottom d.reverse f.reverse).1.reverse, (trimBottom d.reverse f.reverse).2.reverse)

/-- `Dynspec.trim_edges` on the matrix/frequency pair: trim the bottom, then
the top. -/
def trimEdges {α : Type} (d : List (List (Option ℚ))) (f : List α) :
    List (List (Option ℚ)) × List α :=
  trimTop (trimBottom d f).1 (trimBottom d f).2

/-- `np.max` of a 1-D float array (meaningful on nonempty input). -/
def listMax (l : List ℚ) : ℚ :=
  match l with
  | [] => 0
  | x :: xs => xs.foldl max x

/-- `np.min` of a 1-D float array (meaningful on nonempty input). -/
def listMin (l : List ℚ) : ℚ :=
  match l with
  | [] => 0
  | x :: xs => xs.foldl min x

/-- The record fields read and written by `Dynspec.trim_edges`. -/
structure TrimRec where
  dyn : List (List (Option ℚ))
  freqs : List ℚ
  df : ℚ
  nchan : ℕ
  bw : ℚ
  freq : ℚ

/-- Embeds `Dynspec.trim_edges` (dynspec.py 520–539) as a record update:
trims both edges, then recomputes `nchan = len(freqs)`,
`bw = round(max(freqs) - min(freqs) + df, 2)` and
`freq = round(mean(freqs), 2)` from the surviving frequencies. -/
def trim_edges (r : TrimRec) : TrimRec :=
  { r with
    dyn := (trimEdges r.dyn r.freqs).1
    freqs := (trimEdges r.dyn r.freqs).2
    nchan := (trimEdges r.dyn r.freqs).2.length
    bw := broundTo (listMax (trimEdges r.dyn r.freqs).2 -
      listMin (trimEdges r.dyn r.freqs).2 + r.df) 2
    freq := broundTo (listMean (trimEdges r.dyn r.freqs).2) 2 }

/-- A concrete record whose bottom row is zero-sum, for witnessing: two
channels, one sub-integration. -/
def exTrimRec : TrimRec := ⟨[[some 0], [some 1]], [1400, 1401], 1, 2, 2, 1400.5⟩

/-- The numpy forward-DFT kernel `exp(-2·π·i/N)`. -/
noncomputable def dftRoot (N : ℕ) : ℂ := Complex.exp (-(2 * Real.pi * Complex.I) / N)

/-- The numpy inverse-DFT kernel `exp(2·π·i/N)`. -/
noncomputable def idftRoot (N : ℕ) : ℂ := Complex.exp ((2 * Real.pi * Complex.I) / N)

/-- `np.mean` of an `nf × nt` real matrix. -/
noncomputable def matMean (x : ℕ → ℕ → ℝ) (nf nt : ℕ) : ℝ :=
  (∑ i ∈ Finset.range nf, ∑ j ∈ Finset.range nt, x i j) / (nf * nt)

/-- The mean-subtracted intensity matrix of `calc_acf`
(`arr = self.dyn - np.mean(self.dyn)`, dynspec.py 646), zero-padded as by
`np.fft.fft2(arr, s=[M, N])` (line 647). -/
noncomputable def padCentered (dyn : ℕ → ℕ → ℝ) (nf nt : ℕ) : ℕ → ℕ → ℝ :=
  fun i j => if i < nf ∧ j < nt then dyn i j - matMean dyn nf nt else 0

/-- `np.fft.fft2` of a real `M × N` array. -/
noncomputable def fft2 (x : ℕ → ℕ → ℝ) (M N : ℕ) (k1 k2 : ℕ) : ℂ :=
  ∑ j1 ∈ Finset.range M, ∑ j2 ∈ Finset.range N,
    (x j1 j2 : ℂ) * dftRoot M ^ (j1 * k1) * dftRoot N ^ (j2 * k2)

/-- `arr = np.abs(arr); arr **= 2` (dynspec.py 648–649): the real power
spectrum of the padded matrix. -/
noncomputable def acfPower (x : ℕ → ℕ → ℝ) (M N : ℕ) (k1 k2 : ℕ) : ℝ :=
  Complex.abs (fft2 x M N k1 k2) ^ 2

/-- `np.fft.ifft2` of a real `M × N` array. -/
noncomputable def ifft2 (p : ℕ → ℕ → ℝ) (M N : ℕ) (m n : ℕ) : ℂ :=
  (∑ k1 ∈ Finset.range M, ∑ k2 ∈ Finset.range N,
    (p k1 k2 : ℂ) * idftRoot M ^ (k1 * m) * idftRoot N ^ (k2 * n)) / (M * N)

/-- Embeds `Dynspec.calc_acf` (dynspec.py 637–653) with `scale=False` on an
`nf × nt` real intensity matrix: mean subtraction, zero-padding to
`[2·nchan, 2·nsub]`, forward 2-D DFT, squared magnitude, inverse 2-D DFT,
`np.fft.fftshift` (which reads grid position `i` from frequency index
`(i + nchan) mod 2·nchan`, and likewise in time), then the real part. -/
noncomputable def calc_acf (dyn : ℕ → ℕ → ℝ) (nf nt : ℕ) (i j : ℕ) : ℝ :=
  (ifft2 (acfPower (padCentered dyn nf nt) (2 * nf) (2 * nt)) (2 * nf) (2 * nt)
    ((i + nf) % (2 * nf)) ((j + nt) % (2 * nt))).re

/-- The concrete `1 × 2` intensity matrix `[[2, 0]]` on which the ACF grid is
evaluated. -/
noncomputable def exAcfDyn : ℕ → ℕ → ℝ := fun i j => if i = 0 ∧ j = 0 then 2 else 0

/-- Float subtraction with non-finite absorption. -/
def nanSub (a b : Option ℚ) : Option ℚ := nanAdd a (b.map Neg.neg)

/-- Float division: division by zero yields a non-finite value (`inf`/`nan`),
and non-finite operands propagate. -/
def nanDiv : Option ℚ → Option ℚ → Option ℚ
  | some a, some b => if b = 0 then none else some (a / b)
  | _, _ => none

/-- `np.sum` of a float vector (a non-finite entry poisons it). -/
def nanSum (l : List (Option ℚ)) : Option ℚ := l.foldr nanAdd (some 0)

/-- `np.mean` of a float vector (empty input gives `0/0`, non-finite). -/
def nanMean (l : List (Option ℚ)) : Option ℚ := nanDiv (nanSum l) (some l.length)

/-- Binary float `max` with non-finite propagation. -/
def nanMax2 : Option ℚ → Option ℚ → Option ℚ
  | some a, some b => some (max a b)
  | _, _ => none

/-- Binary float `min` with non-finite propagation. -/
def nanMin2 : Option ℚ → Option ℚ → Option ℚ
  | some a, some b => some (min a b)
  | _, _ => none

/-- `np.max` of a float vector (meaningful on nonempty input). -/
def nanMax : List (Option ℚ) → Option ℚ
  | [] => none
  | x :: xs => xs.foldl nanMax2 x

/-- `np.min` of a float vector (meaningful on nonempty input). -/
def nanMin : List (Option ℚ) → Option ℚ
  | [] => none
  | x :: xs => xs.foldl nanMin2 x

/-- Python `round(x, 2)` lifted to possibly non-finite floats. -/
def nanRound2 (x : Option ℚ) : Option ℚ := x.map (fun q => broundTo q 2)

/-- A heap value: a 1-D or 2-D float array. -/
inductive HVal where
  | vec (v : List (Option ℚ))
  | mat (m : List (List (Option ℚ)))

/-- The array heap: numpy arrays in allocation order.  Python variables and
record attributes hold references (indices) into it; an array reachable from
several records is mutated only by writing through its reference. -/
abbrev Store := List HVal

/-- Dereference a 1-D array. -/
def readVec (s : Store) (r : ℕ) : List (Option ℚ) :=
  match s.get? r with
  | some (HVal.vec v) => v
  | _ => []

/-- Dereference a 2-D array. -/
def readMat (s : Store) (r : ℕ) : List (List (Option ℚ)) :=
  match s.get? r with
  | some (HVal.mat m) => m
  | _ => []

/-- Allocate a fresh array (`np.concatenate`, `np.zeros`, `np.delete`,
`np.divide` and `griddata` all return new arrays): append to the heap and
return the new reference. -/
def alloc (s : Store) (v : HVal) : Store × ℕ := (s ++ [v], s.length)

/-- In-place write through an existing reference (the masked assignment
`self.dyn[self.dyn == 0] = np.nan` of `refill`). -/
def writeRef (s : Store) (r : ℕ) (v : HVal) : Store := s.set r v

/-- A processed dynamic-spectrum record: the three long-lived arrays are held
by reference into the heap; scalar attributes are immutable Python values
held directly.  (The per-record derived products `acf`, `sspec`, `fdop`,
`tdel`, `bandpass` are freshly allocated by their stages and never shared
between records, so they are not modelled on the heap.) -/
structure DynRef where
  dynR : ℕ
  freqsR : ℕ
  timesR : ℕ
  name : String
  header : List (List String)
  mjd : ℚ
  tobs : ℚ
  dt : ℚ
  bw : Option ℚ
  df : Option ℚ
  freq : Option ℚ
  nchan : ℕ
  nsub : ℕ

/-- Row-wise concatenation along the time axis:
`np.concatenate((m1, m2, m3), axis=1)` (dynspec.py 77), for matrices with
equal row counts. -/
def matConcatCols (m1 m2 m3 : List (List (Option ℚ))) : List (List (Option ℚ)) :=
  (List.range m1.length).map (fun i : ℕ => m1.getD i [] ++ m2.getD i [] ++ m3.getD i [])

/-- Divide each row by its mean: `np.divide(dyn, np.reshape(bandpass,
[len(bandpass), 1]))` with `bandpass = np.mean(dyn, axis=1)`
(dynspec.py 572–574), on a list matrix with NaN-aware float semantics. -/
def divRowsM (m : List (List (Option ℚ))) : List (List (Option ℚ)) :=
  m.map (fun row => row.map (fun x => nanDiv x (nanMean row)))

/-- Column `j` of a list matrix. -/
def matCol (m : List (List (Option ℚ))) (j : ℕ) : List (Option ℚ) :=
  m.map (fun row => row.getD j none)

/-- Divide each column by its mean: `np.divide(dyn, np.reshape(bandpass,
[1, len(bandpass)]))` with `bandpass = np.mean(dyn, axis=0)`
(dynspec.py 576–578). -/
def divColsM (m : List (List (Option ℚ))) : List (List (Option ℚ)) :=
  m.map (fun row => row.mapIdx (fun j x => nanDiv x (nanMean (matCol m j))))

/-- `Dynspec.trim_edges` (dynspec.py 520–539) as a heap operation: the
`np.delete` rebindings allocate fresh arrays, so when any row is trimmed both
`self.dyn` and `self.freqs` are re-bound to new references; the original
arrays are never written.  The scalars are recomputed either way. -/
def trimEdgesS (s : Store) (r : DynRef) : Store × DynRef :=
  let d := readMat s r.dynR
  let f := readVec s r.freqsR
  let p := trimEdges d f
  let nchan := p.2.length
  let bw := nanRound2 (nanAdd (nanSub (nanMax p.2) (nanMin p.2)) r.df)
  let freq := nanRound2 (nanMean p.2)
  if p.1.length = d.length then
    (s, { r with nchan := nchan, bw := bw, freq := freq })
  else
    let a1 := alloc s (HVal.mat p.1)
    let a2 := alloc a1.1 (HVal.vec p.2)
    (a2.1, { r with dynR := a1.2, freqsR := a2.2, nchan := nchan, bw := bw, freq := freq })

/-- `Dynspec.refill` (dynspec.py 541–559) as a heap operation: the masked
assignment `self.dyn[self.dyn == 0] = np.nan` writes through the record's
own `dyn` reference in place; `griddata` (external, parameter `G`) then
returns a freshly allocated interpolated grid to which `self.dyn` is
re-bound. -/
def refillS (G : List (List (Option ℚ)) → List (List (Option ℚ)))
    (s : Store) (r : DynRef) : Store × DynRef :=
  let d := readMat s r.dynR
  let d1 := d.map (fun row => row.map (fun x => if x = some (0 : ℚ) then none else x))
  let s1 := writeRef s r.dynR (HVal.mat d1)
  let a := alloc s1 (HVal.mat (G d1))
  (a.1, { r with dynR := a.2 })

/-- `Dynspec.correct_band(time=True)` (dynspec.py 561–582) as a heap
operation: both `np.divide` calls allocate fresh arrays (the time-corrected
one is a dead store, see claim C2) and the final `self.dyn = dyn` re-binds to
the once-flattened allocation; nothing reachable from the operands is
written. -/
def correctBandS (s : Store) (r : DynRef) : Store × DynRef :=
  let d := readMat s r.dynR
  let d1 := divRowsM d
  let a1 := alloc s (HVal.mat d1)
  let a2 := alloc a1.1 (HVal.mat (divColsM d1))
  (a2.1, { r with dynR := a1.2 })

/-- The construction phase of `Dynspec.__add__` (dynspec.py 40–84): computes
the gap properties, allocates the concatenated `times` and `dyn` arrays, and
builds the raw combined record — which aliases the FIRST operand's `freqs`
array (`freqs = self.freqs`, line 56) rather than copying it. -/
def dynspecAddRaw (s : Store) (a b : DynRef) : Store × DynRef :=
  let timegap := broundTo ((b.mjd - a.mjd) * 86400 - a.tobs) 2
  let extratimes := arangeQ (a.dt / 2) timegap a.dt
  let nextra := extratimes.length
  let selfDyn := readMat s a.dynR
  let dyngap := List.replicate selfDyn.length (List.replicate nextra (some (0 : ℚ)))
  let name := ((a.name.splitOn ".").headD "") ++ "+" ++ ((b.name.splitOn ".").headD "")
    ++ ".dynspec"
  let t1 := readVec s a.timesR
  let tlast := t1.getLastD none
  let elast : Option ℚ := some (extratimes.getLastD 0)
  let newtimes := t1 ++ extratimes.map (fun e => nanAdd tlast (some e))
    ++ (readVec s b.timesR).map (fun t => nanAdd (nanAdd tlast elast) t)
  let aT := alloc s (HVal.vec newtimes)
  let newdyn := matConcatCols selfDyn dyngap (readMat s b.dynR)
  let aD := alloc aT.1 (HVal.mat newdyn)
  (aD.1,
    { dynR := aD.2, freqsR := a.freqsR, timesR := aT.2, name := name,
      header := a.header ++ b.header, mjd := min a.mjd b.mjd,
      tobs := a.tobs + timegap + b.tobs, dt := a.dt, bw := a.bw, df := a.df,
      freq := a.freq, nchan := a.nchan, nsub := a.nsub + nextra + b.nsub })

/-- `Dynspec.__add__` (dynspec.py 40–84) followed by the
`default_processing` pipeline (lines 170–181) that `Dynspec(dyn=newdyn,
process=True)` runs on the combined record: trim → refill → calc_acf →
correct_band(time=True) → calc_sspec.  `calc_acf` and `calc_sspec` only read
`self.dyn` and bind freshly allocated derived arrays (`self.acf`,
`self.sspec`, `self.fdop`, `self.tdel`), never writing to nor aliasing
`dyn`/`freqs`/`times`, so on the modelled heap they are identities. -/
def dynspecAdd (G : List (List (Option ℚ)) → List (List (Option ℚ)))
    (s : Store) (a b : DynRef) : Store × DynRef :=
  let p0 := dynspecAddRaw s a b
  let p1 := trimEdgesS p0.1 p0.2
  let p2 := refillS G p1.1 p1.2
  correctBandS p2.1 p2.2

/-- A concrete two-record heap for witnessing: records `exRefA`, `exRefB`
own disjoint arrays in a 6-entry store. -/
def exStore : Store :=
  [HVal.mat [[some 1, some 2]], HVal.vec [some 1400], HVal.vec [some 0, some 10],
    HVal.mat [[some 3, some 4]], HVal.vec [some 1400], HVal.vec [some 0, some 10]]

/-- First operand record of the witness heap. -/
def exRefA : DynRef :=
  ⟨0, 1, 2, "a.dynspec", [["a"]], 50000, 20, 10, some 1, some 1, some 1400, 1, 2⟩

/-- Second operand record of the witness heap. -/
def exRefB : DynRef :=
  ⟨3, 4, 5, "b.dynspec", [["b"]], 50000 + 1 / 4, 20, 10, some 1, some 1, some 1400, 1, 2⟩

/-- Heap preservation below a watermark: no array allocated before the
operation is modified. -/
def PreservesBelow (n : ℕ) (s s' : Store) : Prop :=
  ∀ i, i < n → s'.get? i = s.get? i

/-- A pipeline stage is heap-safe for watermark `n`: given a record whose
`dyn` reference was freshly allocated (at or above `n`), it never writes
below `n`, never shrinks the heap below `n`, keeps the `dyn` reference at or
above `n`, and leaves the `times` reference unchanged. -/
def StageOK (n : ℕ) (f : Store → DynRef → Store × DynRef) : Prop :=
  ∀ s r, n ≤ s.length → n ≤ r.dynR →
    PreservesBelow n s (f s r).1 ∧ n ≤ (f s r).1.length ∧ n ≤ (f s r).2.dynR ∧
      (f s r).2.timesR = r.timesR

/-! ## Theorems -/

/-- Indexing helper for `intRange`. -/
theorem intRange_get? (a b k : ℤ) (h1 : a ≤ k) (h2 : k < b) :
    (intRange a b).get? (k - a).toNat = some k := by
  unfold intRange
  rw [List.get?_map, List.get?_range (by omega : (k - a).toNat < (b - a).toNat)]
  simp only [Option.map_some']
  congr 1
  omega

/-- Evaluation of the transform length at `n = 3`. -/
theorem sspecFftLen_three : sspecFftLen 3 = 8 := by
  have h1 : Nat.clog 2 3 ≤ 2 := (Nat.le_pow_iff_clog_le (by norm_num)).1 (by norm_num)
  have h2 : 1 < Nat.clog 2 3 := (Nat.pow_lt_iff_lt_clog (by norm_num)).1 (by norm_num)
  have h3 : Nat.clog 2 3 = 2 := by omega
  rw [sspecFftLen, h3]; norm_num

/-- Evaluation of the transform length at `n = 4`. -/
theorem sspecFftLen_four : sspecFftLen 4 = 8 := by
  have h : Nat.clog 2 4 = 2 := by
    have h2 := Nat.clog_pow 2 2 (by norm_num)
    norm_num at h2
    exact h2
  rw [sspecFftLen, h]; norm_num

/-- Claim C1, counterexample: for `nsub = 4` sub-integrations the code computes
`ncfft = 2**(ceil(log2 4)+1) = 8`, not `16` as the claim states. -/
theorem c1_counterexample : sspecFftLen 4 = 8 ∧ sspecFftLen 4 ≠ 16 :=
  ⟨sspecFftLen_four, by simp [sspecFftLen_four]⟩

/-- Claim C1 (amended): `calc_sspec` chooses each transform length as
`2^(⌈log2 n⌉ + 1)`, which is the smallest power of two that is at least
(not strictly exceeding) `2·n`; in particular `nsub = 4` gives `ncfft = 8`. -/
theorem c1_fft_length_amended (n : ℕ) (hn : 0 < n) :
    2 * n ≤ sspecFftLen n ∧ (∃ k, sspecFftLen n = 2 ^ k) ∧
      (∀ m : ℕ, 2 * n ≤ 2 ^ m → sspecFftLen n ≤ 2 ^ m) ∧ sspecFftLen 4 = 8 := by
  refine ⟨?_, ⟨Nat.clog 2 n + 1, rfl⟩, ?_, sspecFftLen_four⟩
  · have h := Nat.le_pow_clog (by norm_num : 1 < 2) n
    calc 2 * n ≤ 2 * 2 ^ Nat.clog 2 n := by omega
    _ = sspecFftLen n := by rw [sspecFftLen, pow_succ, mul_comm]
  · intro k hk
    have hk1 : 1 ≤ k := by
      by_contra h
      interval_cases k
      omega
    obtain ⟨k', rfl⟩ : ∃ k', k = k' + 1 := ⟨k - 1, by omega⟩
    have hn2 : n ≤ 2 ^ k' := by
      have : 2 * n ≤ 2 * 2 ^ k' := by rw [← pow_succ']; exact hk
      omega
    have hc : Nat.clog 2 n ≤ k' := (Nat.le_pow_iff_clog_le (by norm_num)).1 hn2
    exact Nat.pow_le_pow_right (by norm_num) (by omega)

theorem c1_fft_length_amended_witness :
    0 < 3 ∧ (2 * 3 ≤ sspecFftLen 3 ∧ (∃ k, sspecFftLen 3 = 2 ^ k) ∧
      (∀ m : ℕ, 2 * 3 ≤ 2 ^ m → sspecFftLen 3 ≤ 2 ^ m) ∧ sspecFftLen 4 = 8) :=
  ⟨by decide, c1_fft_length_amended 3 (by decide)⟩

/-- Claim C6: after `calc_sspec`, the stored axis vectors satisfy exactly
`fdop[k] = k·1000/(ncfft·dt)` for every integer `k ∈ [-ncfft/2, ncfft/2)`
(the bin for lag `k` sits at list position `k + ncfft/2`) and
`tdel[k] = k/(nrfft·df)` for every `k ∈ [0, nrfft/2)`, with the code's
`nrfft = sspecFftLen nf` and `ncfft = sspecFftLen nt`. -/
theorem c6_axis_calibration (nf nt : ℕ) (dt df : ℚ) :
    (∀ k : ℤ, -((sspecFftLen nt : ℤ) / 2) ≤ k → k < (sspecFftLen nt : ℤ) / 2 →
      (sspecFdop nt dt).get? (k + (sspecFftLen nt : ℤ) / 2).toNat =
        some ((k : ℚ) * 1000 / ((sspecFftLen nt : ℚ) * dt))) ∧
    (∀ k : ℕ, k < sspecFftLen nf / 2 →
      (sspecTdel nf df).get? k = some ((k : ℚ) / ((sspecFftLen nf : ℚ) * df))) := by
  constructor
  · intro k hk1 hk2
    have hidx : (k + (sspecFftLen nt : ℤ) / 2).toNat = (k - -((sspecFftLen nt : ℤ) / 2)).toNat := by
      omega
    rw [sspecFdop, sspecFd, List.get?_map, hidx, intRange_get? _ _ k hk1 hk2]
    simp only [Option.map_some']
    rw [mul_div_assoc]
  · intro k hk
    rw [sspecTdel, sspecTd, List.get?_map, List.get?_range hk]
    simp

theorem c6_axis_calibration_witness :
    (-((sspecFftLen 4 : ℤ) / 2) ≤ -4 ∧ (-4 : ℤ) < (sspecFftLen 4 : ℤ) / 2 ∧
      (sspecFdop 4 1).get? ((-4 : ℤ) + (sspecFftLen 4 : ℤ) / 2).toNat =
        some (((-4 : ℤ) : ℚ) * 1000 / ((sspecFftLen 4 : ℚ) * 1))) ∧
    (3 < sspecFftLen 3 / 2 ∧
      (sspecTdel 3 1).get? 3 = some (((3 : ℕ) : ℚ) / ((sspecFftLen 3 : ℚ) * 1))) :=
  ⟨⟨by simp [sspecFftLen_four], by simp [sspecFftLen_four],
      (c6_axis_calibration 3 4 1 1).1 (-4) (by simp [sspecFftLen_four])
        (by simp [sspecFftLen_four])⟩,
    ⟨by simp [sspecFftLen_three], (c6_axis_calibration 3 4 1 1).2 3
      (by simp [sspecFftLen_three])⟩⟩

/-- Claim C2: contrary to the claim (and the spec's two-pass description),
`correct_band(time=True)` stores the once-flattened matrix: the assignment of
the twice-flattened matrix on line 577 is overwritten by `self.dyn = dyn` on
line 582.  On the all-finite matrix `[[1, 2], [3, 4]]` the stored entry (0,0)
is `2/3` (once-flattened) while the two-pass value is `7/8`. -/
theorem c2_correct_band_time_bug :
    (∀ (s : BandState) (time : Bool),
      (correct_band s time).dyn = divByRowMean s.dyn s.nt) ∧
    (correct_band ⟨exBandDyn, 2, 2, fun _ => 0⟩ true).dyn 0 0 = 2 / 3 ∧
    divByColMean (divByRowMean exBandDyn 2) 2 0 0 = 7 / 8 ∧
    (correct_band ⟨exBandDyn, 2, 2, fun _ => 0⟩ true).dyn 0 0 ≠
      divByColMean (divByRowMean exBandDyn 2) 2 0 0 := by
  refine ⟨fun s time => by cases time <;> rfl, ?_, ?_, ?_⟩
  · norm_num [correct_band, divByRowMean, rowMean, exBandDyn, Finset.sum_range_succ]
  · norm_num [divByColMean, divByRowMean, colMean, rowMean, exBandDyn,
      Finset.sum_range_succ]
  · norm_num [correct_band, divByColMean, divByRowMean, colMean, rowMean,
      exBandDyn, Finset.sum_range_succ]

/-- Claim C3, counterexample: with the two concrete records separated by a
`206 s` gap and `dt = 10 s`, the inserted gap block's entries are the finite
value `0`, not NaN, and it has `21` columns while `⌊timegap/dt⌋ = 20`, so
neither "every entry is NaN" nor "one column per step of `dt` fitting in the
gap" holds. -/
theorem c3_counterexample :
    ((addDyngap exAdd1 exAdd2).headD []).headD none = some (0 : ℚ) ∧
    ((addDyngap exAdd1 exAdd2).headD []).headD none ≠ none ∧
    addNextra exAdd1 exAdd2 = 21 ∧
    (⌊addTimegap exAdd1 exAdd2 / exAdd1.dt⌋).toNat = 20 := by
  have htg : addTimegap exAdd1 exAdd2 = 206 := by
    norm_num [addTimegap, broundTo, bround, exAdd1, exAdd2]
  have hn : addNextra exAdd1 exAdd2 = 21 := by
    rw [addNextra, arangeLen, htg]
    norm_num [exAdd1]
    rw [show (⌈(201 : ℚ) / 10⌉ : ℤ) = 21 from by rw [Int.ceil_eq_iff] <;> norm_num]
    decide
  refine ⟨?_, ?_, hn, ?_⟩
  · rw [addDyngap, hn]; decide
  · rw [addDyngap, hn]; decide
  · rw [htg]; norm_num [exAdd1]; decide

/-- Claim C3 (amended): the gap block inserted by `__add__` is a zero block —
every entry is the finite value `0` (zeros are reinterpreted as missing only
later, by `refill` during the reprocessing of the combined record) — and its
column count is the number of steps `dt/2 + k·dt`, `k ∈ ℕ`, that fall
strictly below the rounded inter-observation gap `timegap`. -/
theorem c3_gap_block_amended (a b : AddRec) (hdt : 0 < a.dt) :
    (∀ row ∈ addDyngap a b, ∀ x ∈ row, x = some (0 : ℚ)) ∧
    (∀ k : ℕ, k < addNextra a b ↔ a.dt / 2 + k * a.dt < addTimegap a b) := by
  constructor
  · intro row hrow x hx
    rw [List.eq_of_mem_replicate hrow] at hx
    exact List.eq_of_mem_replicate hx
  · intro k
    rw [addNextra, arangeLen]
    rw [Int.lt_toNat, Int.lt_ceil]
    rw [lt_div_iff hdt]
    push_cast
    constructor <;> intro h <;> linarith
theorem c3_gap_block_amended_witness :
    0 < exAdd1.dt ∧
    ((∀ row ∈ addDyngap exAdd1 exAdd2, ∀ x ∈ row, x = some (0 : ℚ)) ∧
      (∀ k : ℕ, k < addNextra exAdd1 exAdd2 ↔
        exAdd1.dt / 2 + k * exAdd1.dt < addTimegap exAdd1 exAdd2)) :=
  ⟨by norm_num [exAdd1], c3_gap_block_amended exAdd1 exAdd2 (by norm_num [exAdd1])⟩

/-- Claim C4, counterexample: starting from a record carrying none of the
curvature attributes, a completed `fit_arc` run (embedded by
`fit_arc_update`, with whatever values the grid search computed — here
`eta = 1`, `etaL = 2`, `etaR = 3`) leaves `etaL` and `etaR` absent, so it is
not the case that all three of `eta`, `etaL`, `etaR` are stored. -/
theorem c4_counterexample :
    (fit_arc_update ⟨[[some 1]], none, none, none⟩ 9 1 2 3).etaL = none ∧
    (fit_arc_update ⟨[[some 1]], none, none, none⟩ 9 1 2 3).etaR = none ∧
    ¬((fit_arc_update ⟨[[some 1]], none, none, none⟩ 9 1 2 3).eta ≠ none ∧
      (fit_arc_update ⟨[[some 1]], none, none, none⟩ 9 1 2 3).etaL ≠ none ∧
      (fit_arc_update ⟨[[some 1]], none, none, none⟩ 9 1 2 3).etaR ≠ none) := by
  refine ⟨rfl, rfl, ?_⟩
  rintro ⟨-, h, -⟩
  exact h rfl

/-- Claim C4 (amended): a successful `fit_arc` call stores only the
branch-averaged curvature `eta` (line 357); the branch maximizers `etaL` and
`etaR` are computed as locals (lines 342–343) but never assigned to the
record, whose `etaL`/`etaR` attributes stay as they were. -/
theorem c4_fit_arc_stores_only_eta (s : ArcState) (startbin : ℕ)
    (eta etaL etaR : ℚ) :
    (fit_arc_update s startbin eta etaL etaR).eta = some eta ∧
    (fit_arc_update s startbin eta etaL etaR).etaL = s.etaL ∧
    (fit_arc_update s startbin eta etaL etaR).etaR = s.etaR :=
  ⟨rfl, rfl, rfl⟩
/-- Claim C5, counterexample: the concrete input `exInput` has no `MJD0:`
header key, yet `load_file` succeeds — it returns a record (so no fatal data
error is raised at load time) whose `mjd` field was simply never assigned. -/
theorem c5_counterexample :
    (loadHeader exInput.lines).2 = none ∧
    (load_file exInput).toOption.map LoadedRec.mjd = some none := by
  have hmjd : (loadHeader exInput.lines).2 = none := by decide
  refine ⟨hmjd, ?_⟩
  have hlen : exInput.flux.length = loadNsub exInput * loadNchan exInput := by
    norm_num [loadNsub, loadNchan, loadNchanRaw, npUnique, sortAsc, dedupAsc,
      insertAsc, exInput]
  simp only [load_file]
  rw [if_pos hlen]
  split <;> simp [Except.toOption, hmjd]

/-- Claim C5 (amended): loading a file whose header lines contain no `MJD0`
key does not fail — `load_file` performs no such validation.  For any input
whose flux column length is consistent (so that the genuine reshape error of
line 122 is not triggered), loading succeeds and merely leaves the `mjd`
field unset; the missing key can only surface later, as an attribute error
when `self.mjd` is first read (e.g. by `info()` when `verbose=True`), not as
a data error at load time. -/
theorem c5_load_missing_mjd0_amended (inp : PsrfluxInput)
    (hmjd : (loadHeader inp.lines).2 = none)
    (hlen : inp.flux.length = loadNsub inp * loadNchan inp) :
    (load_file inp).toOption.map LoadedRec.mjd = some none := by
  simp only [load_file]
  rw [if_pos hlen]
  split <;> simp [Except.toOption, hmjd]

theorem c5_load_missing_mjd0_amended_witness :
    (loadHeader exInput.lines).2 = none ∧
    exInput.flux.length = loadNsub exInput * loadNchan exInput ∧
    (load_file exInput).toOption.map LoadedRec.mjd = some none := by
  have hmjd : (loadHeader exInput.lines).2 = none := by decide
  have hlen : exInput.flux.length = loadNsub exInput * loadNchan exInput := by
    norm_num [loadNsub, loadNchan, loadNchanRaw, npUnique, sortAsc, dedupAsc,
      insertAsc, exInput]
  exact ⟨hmjd, hlen, c5_load_missing_mjd0_amended exInput hmjd hlen⟩
/-- Claim C8: `refill` (with `zeros=True`) leaves every entry that was finite
and non-zero before the call unchanged, given the `griddata` interpolation
contract; consequently an all-finite, all-nonzero matrix is returned
unchanged. -/
theorem c8_refill_preserves_valid (G : (ℕ → ℕ → Option ℚ) → ℕ → ℕ → Option ℚ)
    (hG : Interpolates G) (d : ℕ → ℕ → Option ℚ) :
    (∀ i j q, d i j = some q → q ≠ 0 → refill G d i j = some q) ∧
    ((∀ i j, ∃ q, d i j = some q ∧ q ≠ 0) → refill G d = d) := by
  have hpt : ∀ i j q, d i j = some q → q ≠ 0 → refill G d i j = some q := by
    intro i j q h hq
    apply hG
    simp [maskZeros, h, hq]
  refine ⟨hpt, fun hall => ?_⟩
  funext i j
  obtain ⟨q, hq, hq0⟩ := hall i j
  rw [hq]
  exact hpt i j q hq hq0

theorem c8_refill_preserves_valid_witness :
    Interpolates exInterp ∧
    ((∀ i j q, exRefillDyn i j = some q → q ≠ 0 →
        refill exInterp exRefillDyn i j = some q) ∧
      ((∀ i j, ∃ q, exRefillDyn i j = some q ∧ q ≠ 0) →
        refill exInterp exRefillDyn = exRefillDyn)) :=
  have hG : Interpolates exInterp := by
    intro d i j q h
    simp [exInterp, h]
  ⟨hG, c8_refill_preserves_valid exInterp hG exRefillDyn⟩

/-- `trimBottom` on an empty matrix. -/
theorem trimBottom_nil_left {α : Type} (f : List α) : trimBottom [] f = ([], f) := by
  cases f <;> rfl

/-- `trimBottom` with an exhausted frequency list. -/
theorem trimBottom_nil_right {α : Type} (d : List (List (Option ℚ))) :
    trimBottom (α := α) d [] = (d, []) := by
  cases d <;> rfl

/-- `trimBottom` unfolding on two nonempty lists. -/
theorem trimBottom_cons_cons {α : Type} (r : List (Option ℚ)) (rs : List (List (Option ℚ)))
    (x : α) (fs : List α) :
    trimBottom (r :: rs) (x :: fs) =
      if rowZero r then trimBottom rs fs else (r :: rs, x :: fs) := rfl

/-- `trimBottom` removes the same number of leading elements from both
lists. -/
theorem trimBottom_drop {α : Type} (d : List (List (Option ℚ))) (f : List α) :
    ∃ k, trimBottom d f = (d.drop k, f.drop k) := by
  induction d generalizing f with
  | nil => exact ⟨0, by rw [trimBottom_nil_left]; rfl⟩
  | cons r rs ih =>
    cases f with
    | nil => exact ⟨0, by rw [trimBottom_nil_right]; rfl⟩
    | cons x fs =>
      cases hr : rowZero r with
      | false => exact ⟨0, by rw [trimBottom_cons_cons, hr]; rfl⟩
      | true =>
        obtain ⟨k, hk⟩ := ih fs
        exact ⟨k + 1, by rw [trimBottom_cons_cons, hr, if_pos rfl, hk]; rfl⟩

/-- `trimBottom` is idempotent. -/
theorem trimBottom_idem {α : Type} (d : List (List (Option ℚ))) (f : List α) :
    trimBottom (trimBottom d f).1 (trimBottom d f).2 = trimBottom d f := by
  induction d generalizing f with
  | nil => rw [trimBottom_nil_left, trimBottom_nil_left]
  | cons r rs ih =>
    cases f with
    | nil => rw [trimBottom_nil_right, trimBottom_nil_right]
    | cons x fs =>
      cases hr : rowZero r with
      | false => rw [trimBottom_cons_cons, hr, if_neg (by simp), trimBottom_cons_cons, hr,
          if_neg (by simp)]
      | true => rw [trimBottom_cons_cons, hr, if_pos rfl, ih]

/-- When `trimBottom` stops with both lists nonempty, the surviving first row
is not zero-sum. -/
theorem trimBottom_head_not_zero {α : Type} (d : List (List (Option ℚ))) (f : List α)
    (r : List (Option ℚ)) (rs : List (List (Option ℚ))) (x : α) (fs : List α)
    (h : trimBottom d f = (r :: rs, x :: fs)) : rowZero r = false := by
  induction d generalizing f with
  | nil =>
    rw [trimBottom_nil_left, Prod.mk.injEq] at h
    exact absurd h.1 (by simp)
  | cons r' rs' ih =>
    cases f with
    | nil =>
      rw [trimBottom_nil_right, Prod.mk.injEq] at h
      exact absurd h.2 (by simp)
    | cons x' fs' =>
      rw [trimBottom_cons_cons] at h
      cases hr : rowZero r' with
      | true =>
        rw [hr, if_pos rfl] at h
        exact ih fs' h
      | false =>
        rw [hr, if_neg (by simp), Prod.mk.injEq] at h
        have hr' : r' = r := (List.cons.injEq _ _ _ _ ▸ h.1).1
        rw [← hr']
        exact hr

/-- A nonempty prefix determines the head of the list. -/
theorem take_eq_cons_head {β : Type} :
    ∀ (l : List β) (m : ℕ) (r : β) (rest : List β),
      l.take m = r :: rest → l.head? = some r
  | [], m, r, rest, h => by simp at h
  | a :: l', 0, r, rest, h => by simp at h
  | a :: l', m + 1, r, rest, h => by
    rw [List.take_succ_cons] at h
    have ha : a = r := (List.cons.injEq _ _ _ _ ▸ h).1
    rw [List.head?_cons, ha]
/-- `trimEdges` is idempotent on the matrix/frequency pair. -/
theorem trimEdges_pair_idem {α : Type} (d : List (List (Option ℚ))) (f : List α) :
    trimEdges (trimEdges d f).1 (trimEdges d f).2 = trimEdges d f := by
  obtain ⟨k, hk⟩ := trimBottom_drop (trimBottom d f).1.reverse (trimBottom d f).2.reverse
  have hcomp : trimEdges d f =
      ((trimBottom d f).1.take ((trimBottom d f).1.length - k),
        (trimBottom d f).2.take ((trimBottom d f).2.length - k)) := by
    rw [trimEdges, trimTop, hk]
    dsimp only
    rw [← List.rdrop_eq_reverse_drop_reverse, ← List.rdrop_eq_reverse_drop_reverse,
      List.rdrop, List.rdrop]
  have h21 : (trimEdges d f).1 =
      (trimBottom d f).1.take ((trimBottom d f).1.length - k) := by rw [hcomp]
  have h22 : (trimEdges d f).2 =
      (trimBottom d f).2.take ((trimBottom d f).2.length - k) := by rw [hcomp]
  have hA : trimBottom (trimEdges d f).1 (trimEdges d f).2 =
      ((trimEdges d f).1, (trimEdges d f).2) := by
    rcases hd : (trimEdges d f).1 with - | ⟨r2, rs2⟩
    · rw [trimBottom_nil_left]
    · rcases hf : (trimEdges d f).2 with - | ⟨x2, xs2⟩
      · rw [trimBottom_nil_right]
      · have ht1 : (trimBottom d f).1.take ((trimBottom d f).1.length - k) = r2 :: rs2 := by
          rw [← h21, hd]
        have ht2 : (trimBottom d f).2.take ((trimBottom d f).2.length - k) = x2 :: xs2 := by
          rw [← h22, hf]
        have hh1 : (trimBottom d f).1.head? = some r2 := take_eq_cons_head _ _ _ _ ht1
        obtain ⟨rs1, hrs1⟩ : ∃ rs1, (trimBottom d f).1 = r2 :: rs1 := by
          cases hcc : (trimBottom d f).1 with
          | nil => rw [hcc] at hh1; simp at hh1
          | cons a l =>
            rw [hcc] at hh1
            rw [List.head?_cons, Option.some.injEq] at hh1
            exact ⟨l, by rw [hh1]⟩
        obtain ⟨y, ys, hys⟩ : ∃ y ys, (trimBottom d f).2 = y :: ys := by
          cases hcc : (trimBottom d f).2 with
          | nil => rw [hcc] at ht2; simp at ht2
          | cons y ys => exact ⟨y, ys, rfl⟩
        have hz : rowZero r2 = false := by
          apply trimBottom_head_not_zero d f r2 rs1 y ys
          rw [← hrs1, ← hys]
        rw [trimBottom_cons_cons, hz, if_neg (by simp)]
  have hB : trimTop (trimEdges d f).1 (trimEdges d f).2 = trimEdges d f := by
    have he : trimEdges d f =
        ((trimBottom (trimBottom d f).1.reverse (trimBottom d f).2.reverse).1.reverse,
          (trimBottom (trimBottom d f).1.reverse (trimBottom d f).2.reverse).2.reverse) := by
      rw [trimEdges, trimTop]
    rw [he, trimTop]
    simp only [List.reverse_reverse]
    rw [trimBottom_idem]
  calc trimEdges (trimEdges d f).1 (trimEdges d f).2
      = trimTop (trimBottom (trimEdges d f).1 (trimEdges d f).2).1
          (trimBottom (trimEdges d f).1 (trimEdges d f).2).2 := by rw [trimEdges]
    _ = trimTop (trimEdges d f).1 (trimEdges d f).2 := by rw [hA]
    _ = trimEdges d f := hB

/-- Claim C9: `trim_edges` is idempotent — for a record whose intensity
matrix is not entirely zero-sum (and whose channel axis matches the matrix),
applying it twice yields the same intensity matrix and frequency axis, and
hence the same recomputed `nchan`, `bw`, `freq`, as applying it once. -/
theorem c9_trim_edges_idem (r : TrimRec)
    (hnz : ∃ row ∈ r.dyn, rowZero row = false)
    (hlen : r.dyn.length = r.freqs.length) :
    trim_edges (trim_edges r) = trim_edges r := by
  have h := trimEdges_pair_idem r.dyn r.freqs
  have h1 : (trimEdges (trimEdges r.dyn r.freqs).1 (trimEdges r.dyn r.freqs).2).1 =
      (trimEdges r.dyn r.freqs).1 := by rw [h]
  have h2 : (trimEdges (trimEdges r.dyn r.freqs).1 (trimEdges r.dyn r.freqs).2).2 =
      (trimEdges r.dyn r.freqs).2 := by rw [h]
  simp only [trim_edges, h1, h2]

theorem c9_trim_edges_idem_witness :
    ((∃ row ∈ exTrimRec.dyn, rowZero row = false) ∧
      exTrimRec.dyn.length = exTrimRec.freqs.length) ∧
    trim_edges (trim_edges exTrimRec) = trim_edges exTrimRec :=
  have hnz : ∃ row ∈ exTrimRec.dyn, rowZero row = false :=
    ⟨[some 1], by simp [exTrimRec], by simp [rowZero, nanAbsSum, nanAdd]⟩
  have hlen : exTrimRec.dyn.length = exTrimRec.freqs.length := rfl
  ⟨⟨hnz, hlen⟩, c9_trim_edges_idem exTrimRec hnz hlen⟩
/-- The forward and inverse DFT kernels are mutually inverse. -/
theorem dftRoot_mul_idftRoot (N : ℕ) : dftRoot N * idftRoot N = 1 := by
  rw [dftRoot, idftRoot, ← Complex.exp_add,
    show -(2 * (Real.pi : ℂ) * Complex.I) / N + 2 * (Real.pi : ℂ) * Complex.I / N = 0 by ring]
  exact Complex.exp_zero

theorem dftRoot_pow_mul_idftRoot_pow (N a : ℕ) : dftRoot N ^ a * idftRoot N ^ a = 1 := by
  rw [← mul_pow, dftRoot_mul_idftRoot, one_pow]

/-- Conjugating the forward kernel gives the inverse kernel. -/
theorem conj_dftRoot (N : ℕ) : (starRingEnd ℂ) (dftRoot N) = idftRoot N := by
  rw [dftRoot, idftRoot, ← Complex.exp_conj]
  congr 1
  simp [map_div₀, map_neg, map_mul, map_ofNat, Complex.conj_I, Complex.conj_ofReal]

theorem dftRoot_pow_self {N : ℕ} (hN : N ≠ 0) : dftRoot N ^ N = 1 := by
  have h : (N : ℂ) ≠ 0 := Nat.cast_ne_zero.mpr hN
  rw [dftRoot, ← Complex.exp_nat_mul,
    show (N : ℂ) * (-(2 * (Real.pi : ℂ) * Complex.I) / N) = -(2 * Real.pi * Complex.I) by
      field_simp
      ring,
    Complex.exp_neg, Complex.exp_two_pi_mul_I, inv_one]

theorem idftRoot_pow_self {N : ℕ} (hN : N ≠ 0) : idftRoot N ^ N = 1 := by
  have h : (N : ℂ) ≠ 0 := Nat.cast_ne_zero.mpr hN
  rw [idftRoot, ← Complex.exp_nat_mul,
    show (N : ℂ) * (2 * (Real.pi : ℂ) * Complex.I / N) = 2 * Real.pi * Complex.I by
      field_simp,
    Complex.exp_two_pi_mul_I]

theorem idftRoot_pow_mod {N : ℕ} (hN : N ≠ 0) (a : ℕ) :
    idftRoot N ^ a = idftRoot N ^ (a % N) := by
  conv_lhs => rw [← Nat.div_add_mod a N]
  rw [pow_add, pow_mul, idftRoot_pow_self hN, one_pow, one_mul]

theorem idftRoot_pow_congr {N : ℕ} (hN : N ≠ 0) {a b : ℕ} (h : a % N = b % N) :
    idftRoot N ^ a = idftRoot N ^ b := by
  rw [idftRoot_pow_mod hN a, h, ← idftRoot_pow_mod hN b]

theorem idftRoot_pow_eq_inv (N a : ℕ) : idftRoot N ^ a = (dftRoot N ^ a)⁻¹ :=
  eq_inv_of_mul_eq_one_left
    (by rw [mul_comm]; exact dftRoot_pow_mul_idftRoot_pow N a)

/-- With `k < N`, the forward kernel at the negated index `(N - k) % N` is
the conjugate (inverse-kernel) power. -/
theorem dftRoot_pow_neg_index {N : ℕ} (hN : N ≠ 0) {k : ℕ} (hk : k < N) (j : ℕ) :
    dftRoot N ^ (j * ((N - k) % N)) = idftRoot N ^ (j * k) := by
  have hmul : dftRoot N ^ (j * ((N - k) % N)) * dftRoot N ^ (j * k) = 1 := by
    rw [← pow_add, ← Nat.mul_add]
    rcases Nat.eq_zero_or_pos k with hk0 | hk0
    · subst hk0
      rw [Nat.sub_zero, Nat.mod_self, Nat.add_zero, Nat.mul_zero, pow_zero]
    · rw [show (N - k) % N = N - k from Nat.mod_eq_of_lt (by omega),
        show N - k + k = N by omega, pow_mul', dftRoot_pow_self hN, one_pow]
  rw [idftRoot_pow_eq_inv]
  refine eq_inv_of_mul_eq_one_right ?_
  rw [mul_comm]
  exact hmul

/-- Conjugate symmetry of the forward transform of a real array. -/
theorem fft2_neg_index {M N : ℕ} (hM : M ≠ 0) (hN : N ≠ 0) (x : ℕ → ℕ → ℝ)
    {k1 k2 : ℕ} (hk1 : k1 < M) (hk2 : k2 < N) :
    fft2 x M N ((M - k1) % M) ((N - k2) % N) = (starRingEnd ℂ) (fft2 x M N k1 k2) := by
  rw [fft2, fft2, map_sum]
  refine Finset.sum_congr rfl fun j1 _ => ?_
  rw [map_sum]
  refine Finset.sum_congr rfl fun j2 _ => ?_
  rw [map_mul, map_mul, Complex.conj_ofReal, map_pow, map_pow, conj_dftRoot, conj_dftRoot,
    dftRoot_pow_neg_index hM hk1, dftRoot_pow_neg_index hN hk2]

/-- The power spectrum of a real array is even (up to wraparound). -/
theorem acfPower_neg_index {M N : ℕ} (hM : M ≠ 0) (hN : N ≠ 0) (x : ℕ → ℕ → ℝ)
    {k1 k2 : ℕ} (hk1 : k1 < M) (hk2 : k2 < N) :
    acfPower x M N ((M - k1) % M) ((N - k2) % N) = acfPower x M N k1 k2 := by
  rw [acfPower, acfPower, fft2_neg_index hM hN x hk1 hk2, Complex.abs_conj]

/-- Index negation modulo `M` is an involution below `M`. -/
theorem mod_neg_invol {M : ℕ} (hM : M ≠ 0) {k : ℕ} (hk : k < M) :
    (M - (M - k) % M) % M = k := by
  rcases Nat.eq_zero_or_pos k with hk0 | hk0
  · subst hk0
    rw [Nat.sub_zero, Nat.mod_self, Nat.sub_zero, Nat.mod_self]
  · rw [show (M - k) % M = M - k from Nat.mod_eq_of_lt (by omega),
      show M - (M - k) = k from by omega, Nat.mod_eq_of_lt hk]

/-- Modular product congruence used to reindex the inverse transform. -/
theorem mod_mul_neg_congr {M : ℕ} {k m : ℕ} (hk : k < M) (hm : m < M) :
    (k * ((M - m) % M)) % M = (((M - k) % M) * m) % M := by
  apply (ZMod.natCast_eq_natCast_iff' _ _ _).1
  push_cast [ZMod.natCast_mod, Nat.cast_sub hm.le, Nat.cast_sub hk.le]
  rw [ZMod.natCast_self]
  ring

/-- The inverse transform of an even real array is even. -/
theorem ifft2_even {M N : ℕ} (hM : M ≠ 0) (hN : N ≠ 0) (p : ℕ → ℕ → ℝ)
    (hp : ∀ k1 k2, k1 < M → k2 < N → p ((M - k1) % M) ((N - k2) % N) = p k1 k2)
    {m n : ℕ} (hm : m < M) (hn : n < N) :
    ifft2 p M N ((M - m) % M) ((N - n) % N) = ifft2 p M N m n := by
  rw [ifft2, ifft2]
  congr 1
  rw [← Finset.sum_product', ← Finset.sum_product']
  refine Finset.sum_nbij' (fun q => ((M - q.1) % M, (N - q.2) % N))
    (fun q => ((M - q.1) % M, (N - q.2) % N)) ?_ ?_ ?_ ?_ ?_
  · intro a ha
    simp only [Finset.mem_product, Finset.mem_range] at ha ⊢
    exact ⟨Nat.mod_lt _ (Nat.pos_of_ne_zero hM), Nat.mod_lt _ (Nat.pos_of_ne_zero hN)⟩
  · intro a ha
    simp only [Finset.mem_product, Finset.mem_range] at ha ⊢
    exact ⟨Nat.mod_lt _ (Nat.pos_of_ne_zero hM), Nat.mod_lt _ (Nat.pos_of_ne_zero hN)⟩
  · intro a ha
    simp only [Finset.mem_product, Finset.mem_range] at ha
    rw [Prod.ext_iff]
    exact ⟨mod_neg_invol hM ha.1, mod_neg_invol hN ha.2⟩
  · intro a ha
    simp only [Finset.mem_product, Finset.mem_range] at ha
    rw [Prod.ext_iff]
    exact ⟨mod_neg_invol hM ha.1, mod_neg_invol hN ha.2⟩
  · intro a ha
    simp only [Finset.mem_product, Finset.mem_range] at ha
    rw [hp a.1 a.2 ha.1 ha.2, idftRoot_pow_congr hM (mod_mul_neg_congr ha.1 hm),
      idftRoot_pow_congr hN (mod_mul_neg_congr ha.2 hn)]

/-- Composing the `fftshift` placement with index negation. -/
theorem shift_neg_index {F : ℕ} (hF : F ≠ 0) {i : ℕ} (hi : i < 2 * F) :
    ((2 * F - i) % (2 * F) + F) % (2 * F) = (2 * F - (i + F) % (2 * F)) % (2 * F) := by
  apply (ZMod.natCast_eq_natCast_iff' _ _ _).1
  have hmod : (i + F) % (2 * F) ≤ 2 * F := (Nat.mod_lt _ (by omega)).le
  push_cast [ZMod.natCast_mod, Nat.cast_sub hi.le, Nat.cast_sub hmod]
  have h2F : ((2 * F : ℕ) : ZMod (2 * F)) = 0 := ZMod.natCast_self _
  push_cast at h2F
  linear_combination h2F

/-- Claim C7 (amended): for every real intensity matrix the ACF grid is
symmetric under simultaneous negation of both lags about the zero-lag bin at
`(nchan, nsub)`, with circular wraparound: `acf[i][j] =
acf[(2·nchan - i) % 2·nchan][(2·nsub - j) % 2·nsub]`.  (The plain 180°
rotation of the even-sized grid fails: it misplaces the symmetry centre by
one bin, see the counterexample.) -/
theorem c7_acf_neg_symmetry (dyn : ℕ → ℕ → ℝ) (nf nt : ℕ) (hf : 0 < nf) (ht : 0 < nt)
    (i j : ℕ) (hi : i < 2 * nf) (hj : j < 2 * nt) :
    calc_acf dyn nf nt i j =
      calc_acf dyn nf nt ((2 * nf - i) % (2 * nf)) ((2 * nt - j) % (2 * nt)) := by
  have hM : 2 * nf ≠ 0 := by omega
  have hN : 2 * nt ≠ 0 := by omega
  rw [calc_acf, calc_acf, shift_neg_index (by omega) hi, shift_neg_index (by omega) hj]
  congr 1
  exact (ifft2_even hM hN _ (fun k1 k2 h1 h2 => acfPower_neg_index hM hN _ h1 h2)
    (Nat.mod_lt _ (by omega)) (Nat.mod_lt _ (by omega))).symm

theorem c7_acf_neg_symmetry_witness :
    (0 < 1 ∧ 0 < 2 ∧ 1 < 2 * 1 ∧ 1 < 2 * 2) ∧
    calc_acf exAcfDyn 1 2 1 1 =
      calc_acf exAcfDyn 1 2 ((2 * 1 - 1) % (2 * 1)) ((2 * 2 - 1) % (2 * 2)) :=
  ⟨⟨by decide, by decide, by decide, by decide⟩,
    c7_acf_neg_symmetry exAcfDyn 1 2 (by decide) (by decide) 1 1 (by decide) (by decide)⟩
/-- Concrete value of the forward 4th-root kernel. -/
theorem dftRoot_four : dftRoot 4 = -Complex.I := by
  rw [dftRoot,
    show -(2 * (Real.pi : ℂ) * Complex.I) / ((4 : ℕ) : ℂ) =
        ((-(Real.pi / 2) : ℝ) : ℂ) * Complex.I by push_cast; ring,
    Complex.exp_mul_I]
  simp [← Complex.ofReal_cos, ← Complex.ofReal_sin, Real.cos_pi_div_two, Real.sin_pi_div_two]

/-- Concrete value of the inverse 2nd-root kernel. -/
theorem idftRoot_two : idftRoot 2 = -1 := by
  rw [idftRoot,
    show 2 * (Real.pi : ℂ) * Complex.I / ((2 : ℕ) : ℂ) = (Real.pi : ℂ) * Complex.I by
      push_cast; ring,
    Complex.exp_pi_mul_I]

/-- Mean of the concrete example matrix. -/
theorem exAcfDyn_mean : matMean exAcfDyn 1 2 = 1 := by
  simp [matMean, exAcfDyn, Finset.sum_range_succ]

/-- The forward transform of the padded example matrix, as a function of the
time-frequency index. -/
theorem exAcfDyn_fft (k1 k2 : ℕ) :
    fft2 (padCentered exAcfDyn 1 2) 2 4 k1 k2 = 1 - dftRoot 4 ^ k2 := by
  rw [fft2]
  simp [Finset.sum_range_succ, padCentered, exAcfDyn, exAcfDyn_mean]
  ring

/-- Power-spectrum values of the example (independent of the row index). -/
theorem exAcfDyn_power (k1 : ℕ) :
    acfPower (padCentered exAcfDyn 1 2) 2 4 k1 0 = 0 ∧
    acfPower (padCentered exAcfDyn 1 2) 2 4 k1 1 = 2 ∧
    acfPower (padCentered exAcfDyn 1 2) 2 4 k1 2 = 4 ∧
    acfPower (padCentered exAcfDyn 1 2) 2 4 k1 3 = 2 := by
  have h3 : (-Complex.I) ^ 3 = Complex.I := by
    rw [pow_succ, neg_sq, Complex.I_sq]
    ring
  have h2 : (-Complex.I) ^ 2 = -1 := by
    rw [neg_sq, Complex.I_sq]
  refine ⟨?_, ?_, ?_, ?_⟩ <;>
    rw [acfPower, exAcfDyn_fft, dftRoot_four] <;>
    simp [h2, h3, Complex.sq_abs, Complex.normSq_apply, Complex.add_re, Complex.add_im,
      Complex.sub_re, Complex.sub_im, Complex.one_re, Complex.one_im, Complex.I_re,
      Complex.I_im] <;>
    norm_num

/-- ACF grid value at position `(1, 2)` (the zero-lag bin) of the example. -/
theorem exAcfDyn_val_12 : calc_acf exAcfDyn 1 2 1 2 = 2 := by
  have hidx : calc_acf exAcfDyn 1 2 1 2 =
      (ifft2 (acfPower (padCentered exAcfDyn 1 2) 2 4) 2 4 0 0).re := by
    rw [calc_acf]
  rw [hidx, ifft2]
  have hP := exAcfDyn_power
  simp [Finset.sum_range_succ, (hP 0).1, (hP 0).2.1, (hP 0).2.2.1, (hP 0).2.2.2,
    (hP 1).1, (hP 1).2.1, (hP 1).2.2.1, (hP 1).2.2.2]
  rw [show ((2 : ℂ) + 4 + 2 + (2 + 4 + 2)) / (2 * 4) = 2 by norm_num]
  simp

/-- ACF grid value at position `(0, 1)` of the example. -/
theorem exAcfDyn_val_01 : calc_acf exAcfDyn 1 2 0 1 = 0 := by
  have hidx : calc_acf exAcfDyn 1 2 0 1 =
      (ifft2 (acfPower (padCentered exAcfDyn 1 2) 2 4) 2 4 1 3).re := by
    rw [calc_acf]
  rw [hidx, ifft2]
  have hP := exAcfDyn_power
  rw [show ((2 : ℕ) : ℂ) * ((4 : ℕ) : ℂ) = 8 by push_cast; ring]
  simp [Finset.sum_range_succ, (hP 0).1, (hP 0).2.1, (hP 0).2.2.1, (hP 0).2.2.2,
    (hP 1).1, (hP 1).2.1, (hP 1).2.2.1, (hP 1).2.2.2, idftRoot_two]
  ring

/-- Claim C7, counterexample: on the real matrix `[[2, 0]]` the ACF grid is
not equal to its own 180° rotation: the entry at `(1, 2)` is `2` while its
rotation image at `(0, 1)` is `0`.  (The grid is instead symmetric about the
centre bin with wraparound, see the amended theorem.) -/
theorem c7_counterexample :
    calc_acf exAcfDyn 1 2 1 2 = 2 ∧
    calc_acf exAcfDyn 1 2 (2 * 1 - 1 - 1) (2 * 2 - 1 - 2) = 0 ∧
    ¬(∀ i j, i < 2 * 1 → j < 2 * 2 →
        calc_acf exAcfDyn 1 2 i j =
          calc_acf exAcfDyn 1 2 (2 * 1 - 1 - i) (2 * 2 - 1 - j)) := by
  have h0 : (2 * 1 - 1 - 1 : ℕ) = 0 := by norm_num
  have h1 : (2 * 2 - 1 - 2 : ℕ) = 1 := by norm_num
  refine ⟨exAcfDyn_val_12, by rw [h0, h1]; exact exAcfDyn_val_01, fun h => ?_⟩
  have h12 := h 1 2 (by norm_num) (by norm_num)
  rw [h0, h1, exAcfDyn_val_12, exAcfDyn_val_01] at h12
  norm_num at h12
theorem alloc_get? (s : Store) (v : HVal) {i : ℕ} (h : i < s.length) :
    (alloc s v).1.get? i = s.get? i := List.get?_append h

theorem alloc_length (s : Store) (v : HVal) : (alloc s v).1.length = s.length + 1 := by
  simp [alloc]

theorem writeRef_get? (s : Store) (r : ℕ) (v : HVal) {i : ℕ} (h : r ≠ i) :
    (writeRef s r v).get? i = s.get? i := List.get?_set_ne _ _ h

theorem writeRef_length (s : Store) (r : ℕ) (v : HVal) :
    (writeRef s r v).length = s.length := by simp [writeRef]

theorem trimEdgesS_ok (n : ℕ) : StageOK n trimEdgesS := by
  intro s r hs hr
  simp only [trimEdgesS]
  split
  · exact ⟨fun i _ => rfl, hs, hr, by trivial⟩
  · refine ⟨fun i hi => ?_, ?_, ?_, by trivial⟩
    · rw [alloc_get? _ _ (by rw [alloc_length]; omega), alloc_get? _ _ (by omega)]
    · rw [alloc_length, alloc_length]; omega
    · simp only [alloc]; omega

theorem refillS_ok (n : ℕ) (G : List (List (Option ℚ)) → List (List (Option ℚ))) :
    StageOK n (refillS G) := by
  intro s r hs hr
  simp only [refillS]
  refine ⟨fun i hi => ?_, ?_, ?_, by trivial⟩
  · rw [alloc_get? _ _ (by rw [writeRef_length]; omega), writeRef_get? _ _ _ (by omega)]
  · rw [alloc_length, writeRef_length]; omega
  · simp only [alloc, writeRef_length]
    omega

theorem correctBandS_ok (n : ℕ) : StageOK n correctBandS := by
  intro s r hs hr
  simp only [correctBandS]
  refine ⟨fun i hi => ?_, ?_, ?_, by trivial⟩
  · rw [alloc_get? _ _ (by rw [alloc_length]; omega), alloc_get? _ _ (by omega)]
  · rw [alloc_length, alloc_length]; omega
  · simp only [alloc]; omega

theorem dynspecAddRaw_ok (s : Store) (a b : DynRef) :
    PreservesBelow s.length s (dynspecAddRaw s a b).1 ∧
    s.length ≤ (dynspecAddRaw s a b).1.length ∧
    s.length ≤ (dynspecAddRaw s a b).2.dynR ∧
    s.length ≤ (dynspecAddRaw s a b).2.timesR := by
  simp only [dynspecAddRaw]
  refine ⟨fun i hi => ?_, ?_, ?_, ?_⟩
  · rw [alloc_get? _ _ (by rw [alloc_length]; omega), alloc_get? _ _ (by omega)]
  · rw [alloc_length, alloc_length]; omega
  · simp only [alloc, List.length_append]; omega
  · simp only [alloc]; omega

/-- Claim C10: combining two records with `__add__` (including the full
reprocessing pipeline run on the combined record) leaves both operands
unmodified: the arrays their `dyn`, `freqs` and `times` references point to
are bitwise unchanged on the heap, and every scalar field is unchanged
because operands are never assigned to (the embedding passes them by value,
mirroring that `__add__` contains no attribute assignment to `self` or
`other`).  The result is freshly constructed: its `dyn` and `times` arrays
are new allocations (its `freqs` reference deliberately aliases the first
operand's array, which the pipeline only reads or replaces, never writes). -/
theorem c10_add_preserves_operands
    (G : List (List (Option ℚ)) → List (List (Option ℚ))) (s : Store) (a b : DynRef)
    (ha1 : a.dynR < s.length) (ha2 : a.freqsR < s.length) (ha3 : a.timesR < s.length)
    (hb1 : b.dynR < s.length) (hb2 : b.freqsR < s.length) (hb3 : b.timesR < s.length) :
    (readMat (dynspecAdd G s a b).1 a.dynR = readMat s a.dynR ∧
      readVec (dynspecAdd G s a b).1 a.freqsR = readVec s a.freqsR ∧
      readVec (dynspecAdd G s a b).1 a.timesR = readVec s a.timesR) ∧
    (readMat (dynspecAdd G s a b).1 b.dynR = readMat s b.dynR ∧
      readVec (dynspecAdd G s a b).1 b.freqsR = readVec s b.freqsR ∧
      readVec (dynspecAdd G s a b).1 b.timesR = readVec s b.timesR) ∧
    (s.length ≤ (dynspecAdd G s a b).2.dynR ∧
      s.length ≤ (dynspecAdd G s a b).2.timesR) := by
  obtain ⟨hp0, hl0, hd0, ht0⟩ := dynspecAddRaw_ok s a b
  obtain ⟨hp1, hl1, hd1, ht1⟩ := trimEdgesS_ok s.length _ _ hl0 hd0
  obtain ⟨hp2, hl2, hd2, ht2⟩ :=
    refillS_ok s.length G _ _ hl1 hd1
  obtain ⟨hp3, hl3, hd3, ht3⟩ :=
    correctBandS_ok s.length _ _ hl2 hd2
  have hstore : PreservesBelow s.length s (dynspecAdd G s a b).1 := by
    intro i hi
    show (correctBandS _ _).1.get? i = s.get? i
    rw [hp3 i hi, hp2 i hi, hp1 i hi, hp0 i hi]
  have hread : ∀ j, j < s.length →
      (dynspecAdd G s a b).1.get? j = s.get? j := hstore
  refine ⟨⟨?_, ?_, ?_⟩, ⟨?_, ?_, ?_⟩, ?_, ?_⟩
  · rw [readMat, readMat, hread _ ha1]
  · rw [readVec, readVec, hread _ ha2]
  · rw [readVec, readVec, hread _ ha3]
  · rw [readMat, readMat, hread _ hb1]
  · rw [readVec, readVec, hread _ hb2]
  · rw [readVec, readVec, hread _ hb3]
  · exact hd3
  · show s.length ≤ (correctBandS _ _).2.timesR
    rw [ht3, ht2, ht1]
    exact ht0

theorem c10_add_preserves_operands_witness :
    (exRefA.dynR < exStore.length ∧ exRefA.freqsR < exStore.length ∧
      exRefA.timesR < exStore.length ∧ exRefB.dynR < exStore.length ∧
      exRefB.freqsR < exStore.length ∧ exRefB.timesR < exStore.length) ∧
    ((readMat (dynspecAdd id exStore exRefA exRefB).1 exRefA.dynR =
        readMat exStore exRefA.dynR ∧
      readVec (dynspecAdd id exStore exRefA exRefB).1 exRefA.freqsR =
        readVec exStore exRefA.freqsR ∧
      readVec (dynspecAdd id exStore exRefA exRefB).1 exRefA.timesR =
        readVec exStore exRefA.timesR) ∧
    (readMat (dynspecAdd id exStore exRefA exRefB).1 exRefB.dynR =
        readMat exStore exRefB.dynR ∧
      readVec (dynspecAdd id exStore exRefA exRefB).1 exRefB.freqsR =
        readVec exStore exRefB.freqsR ∧
      readVec (dynspecAdd id exStore exRefA exRefB).1 exRefB.timesR =
        readVec exStore exRefB.timesR) ∧
    (exStore.length ≤ (dynspecAdd id exStore exRefA exRefB).2.dynR ∧
      exStore.length ≤ (dynspecAdd id exStore exRefA exRefB).2.timesR)) :=
  ⟨⟨by decide, by decide, by decide, by decide, by decide, by decide⟩,
    c10_add_preserves_operands id exStore exRefA exRefB (by decide) (by decide)
      (by decide) (by decide) (by decide) (by decide)⟩
end Scintools
